import Mathlib

/-!
Verification of the Sentinel-AI detection/mitigation core.

Shallow embedding of the Python sources under `model/app/`:
`network_slicing.py`, `app.py` (RateTracker, `is_ddos_attack`),
`mitigation_engine.py` and `performance_cache.py`.  Timestamps, rates and
confidences are modelled as rationals; Python dicts as insertion-ordered
association lists; the SDN controller and the scoring model as explicit
oracles; a raised exception as an `Except.error` value.
-/

/-! ### Association-list model of a Python dict (insertion order preserved) -/

/-- `d[k]` lookup: first binding of `k`, if any. -/
def assocGet {β : Type} : List (String × β) → String → Option β
  | [], _ => none
  | (k', v) :: rest, k => if k' = k then some v else assocGet rest k

/-- `d[k] = v` assignment: update in place if the key exists, else append
(Python dicts keep insertion order). -/
def assocSet {β : Type} : List (String × β) → String → β → List (String × β)
  | [], k, v => [(k, v)]
  | (k', v') :: rest, k, v =>
    if k' = k then (k, v) :: rest else (k', v') :: assocSet rest k v

/-- `del d[k]`: remove the (unique) binding of `k`. -/
def assocRemove {β : Type} : List (String × β) → String → List (String × β)
  | [], _ => []
  | (k', v') :: rest, k =>
    if k' = k then rest else (k', v') :: assocRemove rest k

/-! ### network_slicing.py -/

/-- One entry of `SLICE_DEFINITIONS` (the `ideal_use` string is dropped). -/
structure SliceInfo where
  description : String
  priority : Nat
  bandwidth_weight : ℚ
  deriving Repr, DecidableEq

/-- `SLICE_DEFINITIONS` dict from network_slicing.py. -/
def SLICE_DEFINITIONS : String → Option SliceInfo
  | "eMBB" => some ⟨"Enhanced Mobile Broadband", 2, 1/2⟩
  | "URLLC" => some ⟨"Ultra Reliable Low Latency Communications", 1, 3/10⟩
  | "mMTC" => some ⟨"Massive Machine Type Communications", 3, 1/5⟩
  | _ => none

/-- `classify_slice(packet_size, protocol, pps)`. -/
def classify_slice (packet_size : ℤ) (protocol : String) (pps : ℚ) : String :=
  if pps > 200 ∨ protocol = "ICMP" then "URLLC"
  else if packet_size < 200 ∧ pps < 20 then "mMTC"
  else "eMBB"

/-- Result dict of `apply_slice_policy` (timestamp/ideal_use fields dropped). -/
structure SlicePolicy where
  slice : String
  priority : Nat
  bandwidth_weight : ℚ
  description : String
  deriving Repr, DecidableEq

/-- `apply_slice_policy(slice_name)`: `SLICE_DEFINITIONS.get(slice_name, eMBB)`. -/
def apply_slice_policy (slice_name : String) : SlicePolicy :=
  let info := (SLICE_DEFINITIONS slice_name).getD ⟨"Enhanced Mobile Broadband", 2, 1/2⟩
  { slice := slice_name, priority := info.priority,
    bandwidth_weight := info.bandwidth_weight, description := info.description }

/-- `get_network_slice(packet_size, protocol, pps)`. -/
def get_network_slice (packet_size : ℤ) (protocol : String) (pps : ℚ) : SlicePolicy :=
  apply_slice_policy (classify_slice packet_size protocol pps)

/-! ### app.py — scoring model, feature builder, `is_ddos_attack` -/

/-- The loaded joblib model: its `n_features_in_` and its scoring behaviour on
a feature vector, returning `(predict result, max of predict_proba)` or the
exception it raises. -/
structure MLModel where
  n_features_in : Nat
  score : List ℚ → Except String (ℤ × ℚ)

/-- `build_features(pkt_size, pps)` from app.py: the 9 base features, then
tail-truncated or zero-padded to the model's expected length. -/
def build_features (expected : Nat) (pkt_size : ℤ) (pps : ℚ) : List ℚ :=
  let base : List ℚ := [1, pps, (pkt_size : ℚ)/100, 1/2, 3/10, 10, 1, 1, 1]
  if base.length > expected then base.take expected
  else if base.length < expected then base ++ List.replicate (expected - base.length) 0
  else base

/-- `is_ddos_attack(pkt_size, pps)` from app.py.  `model` is the module-level
model (None when loading failed); a model exception is caught and yields
`False`. -/
def is_ddos_attack (model : Option MLModel) (pkt_size : ℤ) (pps : ℚ) : Bool :=
  match model with
  | some m =>
    match m.score (build_features m.n_features_in pkt_size pps) with
    | Except.ok (pred, prob) => decide (pred = 1 ∧ prob > 7/10)
    | Except.error _ => false
  | none => decide (pps > 50)

/-- A model whose `predict` raises on every input (e.g. a shape mismatch). -/
def raisingModel : MLModel :=
  { n_features_in := 9, score := fun _ => Except.error "predict failed" }

/-! ### app.py — RateTracker -/

/-- The purge loop of `RateTracker.add`: `while q and ts - q[0] > window:
q.popleft()`. -/
def purgeFront (window ts : ℚ) : List ℚ → List ℚ
  | [] => []
  | t :: rest => if ts - t > window then purgeFront window ts rest else t :: rest

/-- `RateTracker`: the window length and the per-source deques of timestamps
(front of each deque first). -/
structure RateTracker where
  window : ℚ
  timestamps : List (String × List ℚ)
  deriving Repr, DecidableEq

/-- One source's deque (a `defaultdict(deque)` read: absent means empty). -/
def RateTracker.queue (rt : RateTracker) (src : String) : List ℚ :=
  (assocGet rt.timestamps src).getD []

/-- `RateTracker.add(src_ip, ts)`: append `ts`, then pop entries older than
the window from the front. -/
def RateTracker.add (rt : RateTracker) (src : String) (ts : ℚ) : RateTracker :=
  { rt with timestamps :=
      assocSet rt.timestamps src (purgeFront rt.window ts (rt.queue src ++ [ts])) }

/-- `RateTracker.pps(src_ip)`: `len(q) / window if q else 0.0`.  Note: reads
no clock and purges nothing. -/
def RateTracker.pps (rt : RateTracker) (src : String) : ℚ :=
  match rt.queue src with
  | [] => 0
  | q => (q.length : ℚ) / rt.window

/-- Recording a sequence of `(timestamp)` events for one source. -/
def RateTracker.addAll (rt : RateTracker) (src : String) (l : List ℚ) : RateTracker :=
  l.foldl (fun acc ts => acc.add src ts) rt

/-! ### mitigation_engine.py -/

/-- Python's `str.lower()` (character-wise lowering; the strings compared in
the engine are ASCII). -/
def strLower (s : String) : String := ⟨s.data.map Char.toLower⟩

/-- A `blocked_ips` entry. -/
structure BlockRecord where
  timestamp : ℚ
  confidence : ℚ
  packets_blocked : Nat
  reason : String
  last_seen : ℚ
  deriving Repr, DecidableEq

/-- A `mitigation_history` entry (the `details` dict is dropped). -/
structure HistEvent where
  timestamp : ℚ
  ip : String
  confidence : ℚ
  action : String
  deriving Repr, DecidableEq

/-- The engine's mutable state: `blocked_ips` and `mitigation_history`. -/
structure EngineState where
  blocked_ips : List (String × BlockRecord)
  mitigation_history : List HistEvent
  deriving Repr, DecidableEq

/-- `config['ddos_threshold']`. -/
def ddos_threshold : ℚ := 1/2

/-- `config['block_duration']` (seconds). -/
def block_duration : ℚ := 3600

/-- `config['max_history']`. -/
def max_history : Nat := 1000

/-- The SDN controller oracle: whether `sdn_controller.block_ip` /
`sdn_controller.unblock_ip` return True for a given ip. -/
structure SDNOracle where
  blockOk : String → Bool
  unblockOk : String → Bool

/-- `is_ip_blocked(ip)`: if blocked, bump `last_seen` and `packets_blocked`
and return True; returns the flag and the (possibly mutated) state. -/
def is_ip_blocked (s : EngineState) (now : ℚ) (ip : String) : Bool × EngineState :=
  match assocGet s.blocked_ips ip with
  | some r =>
    let r' : BlockRecord :=
      { r with last_seen := now, packets_blocked := r.packets_blocked + 1 }
    (true, { s with blocked_ips := assocSet s.blocked_ips ip r' })
  | none => (false, s)

/-- `block_ip(ip, reason, confidence)`: refuse sentinel ips, else call the
controller and on success create the BlockRecord.  Returns
`(success, new state, number of control-plane block calls made)`. -/
def block_ip (sdn : SDNOracle) (s : EngineState) (now : ℚ) (ip reason : String)
    (confidence : ℚ) : Bool × EngineState × Nat :=
  if ip = "" ∨ ip = "0.0.0.0" ∨ ip = "unknown" then (false, s, 0)
  else if sdn.blockOk ip then
    let bl := assocSet s.blocked_ips ip ⟨now, confidence, 0, reason, now⟩
    (true, { s with blocked_ips := bl }, 1)
  else (false, s, 1)

/-- The dict returned by `execute_mitigation` (keys used by the claims). -/
structure MitigationResult where
  status : String
  mitigation_applied : Bool
  packets_blocked : Option Nat
  confidence : Option ℚ
  deriving Repr, DecidableEq

/-- The detection dict consumed by `execute_mitigation`. -/
structure DetectionResult where
  prediction : String
  confidence : ℚ
  deriving Repr, DecidableEq

/-- `execute_mitigation(detection_result, flow_info)`; `src_ip` is
`flow_info.get('src_ip', 'unknown')`.  Returns
`(result dict, new state, number of control-plane block calls made)`. -/
def execute_mitigation (sdn : SDNOracle) (s : EngineState) (now : ℚ)
    (det : DetectionResult) (src_ip : String) : MitigationResult × EngineState × Nat :=
  if src_ip = "unknown" ∨ src_ip = "0.0.0.0" then
    (⟨"error", false, none, none⟩, s, 0)
  else
    let p := is_ip_blocked s now src_ip
    if p.1 then
      (⟨"already_blocked", false,
        (assocGet p.2.blocked_ips src_ip).map (fun r => r.packets_blocked), none⟩,
       p.2, 0)
    else
      if strLower det.prediction = "ddos" ∧ det.confidence ≥ ddos_threshold then
        let b := block_ip sdn p.2 now src_ip "DDoS detected" det.confidence
        if b.1 then
          (⟨"blocked", true, none, some det.confidence⟩,
           { b.2.1 with mitigation_history := b.2.1.mitigation_history ++
               [⟨now, src_ip, det.confidence, "BLOCKED"⟩] },
           b.2.2)
        else (⟨"block_failed", false, none, none⟩, b.2.1, b.2.2)
      else (⟨"normal", false, none, some det.confidence⟩, p.2, 0)

/-- `unblock_ip(ip)`: False if not blocked, else call the controller and on
success delete the record.  Returns
`(success, new state, number of control-plane unblock calls made)`. -/
def unblock_ip (sdn : SDNOracle) (s : EngineState) (ip : String) :
    Bool × EngineState × Nat :=
  match assocGet s.blocked_ips ip with
  | none => (false, s, 0)
  | some _ =>
    if sdn.unblockOk ip then
      (true, { s with blocked_ips := assocRemove s.blocked_ips ip }, 1)
    else (false, s, 1)

/-- `_cleanup_expired_blocks()`: unblock every ip whose record is strictly
older than `block_duration`, then truncate the history to its last
`max_history` entries when it exceeds that bound. -/
def cleanup_expired_blocks (sdn : SDNOracle) (s : EngineState) (now : ℚ) :
    EngineState × Nat :=
  let expired := (s.blocked_ips.filter
      (fun p => decide (now - p.2.timestamp > block_duration))).map (fun p => p.1)
  let s1 := expired.foldl (fun (acc : EngineState × Nat) ip =>
      let u := unblock_ip sdn acc.1 ip
      (u.2.1, acc.2 + u.2.2)) (s, 0)
  let h := s1.1.mitigation_history
  (⟨s1.1.blocked_ips, if h.length > max_history then h.drop (h.length - max_history) else h⟩,
   s1.2)

/-! ### performance_cache.py -/

/-- `PerformanceCache`: `cache` and `access_times` fused into one
insertion-ordered list of `(key, (value, stored_at))`. -/
structure PCache (V : Type) where
  max_size : Nat
  ttl : ℚ
  entries : List (String × V × ℚ)

/-- `min(self.access_times.keys(), key=...)`: the first entry with minimal
`stored_at` (Python's `min` keeps the earliest on ties), with its time. -/
def oldestEntry {V : Type} : List (String × V × ℚ) → Option (String × ℚ)
  | [] => none
  | (k, _, t) :: rest =>
    match oldestEntry rest with
    | none => some (k, t)
    | some (k', t') => if t ≤ t' then some (k, t) else some (k', t')

/-- `PerformanceCache.set(key, value)` at wall-clock `now`: evict the
oldest-by-`stored_at` entry when at capacity, then store `(value, now)`. -/
def PCache.set {V : Type} (c : PCache V) (now : ℚ) (k : String) (v : V) : PCache V :=
  let pruned :=
    if c.entries.length ≥ c.max_size then
      match oldestEntry c.entries with
      | some (k₀, _) => assocRemove c.entries k₀
      | none => c.entries
    else c.entries
  { c with entries := assocSet pruned k (v, now) }

/-- `PerformanceCache.get(key)` at wall-clock `now`: a hit only while
`now - stored_at < ttl`; an expired entry is deleted on the way out. -/
def PCache.get {V : Type} (c : PCache V) (now : ℚ) (k : String) :
    Option V × PCache V :=
  match assocGet c.entries k with
  | none => (none, c)
  | some (v, t) =>
    if now - t < c.ttl then (some v, c)
    else (none, { c with entries := assocRemove c.entries k })

/-- Performing a sequence of `set` calls, each triple `(key, value, stored_at)`
supplying its own wall-clock time. -/
def PCache.setAll {V : Type} (c : PCache V) (l : List (String × V × ℚ)) : PCache V :=
  l.foldl (fun acc e => acc.set e.2.2 e.1 e.2.1) c

/-! ### Concrete collaborators used to evaluate the development -/

/-- A controller for which every block/unblock call succeeds. -/
def sdnAlwaysOk : SDNOracle := ⟨fun _ => true, fun _ => true⟩

/-- A controller for which every block/unblock call fails (unreachable Ryu). -/
def sdnAlwaysFails : SDNOracle := ⟨fun _ => false, fun _ => false⟩

/-- A fresh engine state: nothing blocked, empty history. -/
def emptyEngine : EngineState := ⟨[], []⟩

/-- A history already filled to the `max_history` bound. -/
def fullHistory : List HistEvent := List.replicate 1000 ⟨0, "9.9.9.9", 1, "BLOCKED"⟩

/-! ### Helper lemmas on association lists -/

theorem assocGet_assocSet_self {β : Type} (l : List (String × β)) (k : String) (v : β) :
    assocGet (assocSet l k v) k = some v := by
  induction l with
  | nil => simp [assocGet, assocSet]
  | cons hd tl ih =>
    obtain ⟨k', v'⟩ := hd
    by_cases h : k' = k <;> simp [assocSet, assocGet, h, ih]

theorem assocGet_append {β : Type} (l1 l2 : List (String × β)) (k : String) :
    assocGet (l1 ++ l2) k =
      match assocGet l1 k with
      | some v => some v
      | none => assocGet l2 k := by
  induction l1 with
  | nil => simp [assocGet]
  | cons hd tl ih =>
    obtain ⟨k', v'⟩ := hd
    by_cases h : k' = k <;> simp [assocGet, h, ih]

theorem assocSet_absent {β : Type} (l : List (String × β)) (k : String) (v : β)
    (h : assocGet l k = none) : assocSet l k v = l ++ [(k, v)] := by
  induction l with
  | nil => simp [assocSet]
  | cons hd tl ih =>
    obtain ⟨k', v'⟩ := hd
    by_cases hk : k' = k
    · simp [assocGet, hk] at h
    · simp [assocGet, hk] at h
      simp [assocSet, hk, ih h]

theorem assocSet_length_le {β : Type} (l : List (String × β)) (k : String) (v : β) :
    (assocSet l k v).length ≤ l.length + 1 := by
  induction l with
  | nil => simp [assocSet]
  | cons hd tl ih =>
    obtain ⟨k', v'⟩ := hd
    by_cases h : k' = k
    · simp [assocSet, h]
    · simp [assocSet, h]; omega

theorem assocRemove_length_of_get {β : Type} (l : List (String × β)) (k : String) (v : β)
    (h : assocGet l k = some v) : (assocRemove l k).length + 1 = l.length := by
  induction l with
  | nil => simp [assocGet] at h
  | cons hd tl ih =>
    obtain ⟨k', v'⟩ := hd
    by_cases hk : k' = k
    · simp [assocRemove, hk]
    · simp [assocGet, hk] at h
      simp [assocRemove, hk, ih h]

theorem assocGet_of_key_mem {β : Type} (l : List (String × β)) (k : String)
    (h : ∃ x ∈ l, x.1 = k) : ∃ v, assocGet l k = some v := by
  induction l with
  | nil => simp at h
  | cons hd tl ih =>
    obtain ⟨k', v'⟩ := hd
    by_cases hk : k' = k
    · exact ⟨v', by simp [assocGet, hk]⟩
    · simp [assocGet, hk]
      rcases h with ⟨x, hx, hxk⟩
      rcases List.mem_cons.mp hx with h1 | h1
      · subst h1; exact absurd hxk hk
      · exact ih ⟨x, h1, hxk⟩

/-! ### C1 -/

/-- C1: with no scoring model configured, `is_ddos_attack(pkt_size, pps)` is
the deterministic fallback: it returns true iff `pps > 50`, for every packet
size and rate (hence in particular for pps in {0, 50, 50.0001, 51, 1000}). -/
theorem C1_no_model_fallback (pkt_size : ℤ) (pps : ℚ) :
    is_ddos_attack none pkt_size pps = true ↔ pps > 50 := by
  simp [is_ddos_attack]

/-! ### C3 -/

/-- C3 counterexample: with a configured model whose `predict` raises, at
`pkt_size = 64`, `pps = 1000` the claimed equivalence
`is_threat ↔ pps > 50` fails: the `except` branch of `is_ddos_attack`
returns False although `1000 > 50`. -/
theorem C3_counterexample :
    ¬ (is_ddos_attack (some raisingModel) 64 1000 = true ↔ (1000 : ℚ) > 50) := by
  decide

/-- C3 (amended): whenever the configured model raises during classification,
`is_ddos_attack` catches the exception and returns False (non-threat) — the
`pps > 50` fallback governs only when no model is configured — and the model
failure is never surfaced to the caller. -/
theorem C3_model_error_yields_false (m : MLModel) (pkt_size : ℤ) (pps : ℚ) (e : String)
    (h : m.score (build_features m.n_features_in pkt_size pps) = Except.error e) :
    is_ddos_attack (some m) pkt_size pps = false := by
  simp [is_ddos_attack, h]

/-- C3 witness: the amended theorem applied to the always-raising model at
`pkt_size = 64`, `pps = 1000`. -/
theorem C3_model_error_yields_false_witness :
    is_ddos_attack (some raisingModel) 64 1000 = false :=
  C3_model_error_yields_false raisingModel 64 1000 "predict failed" rfl

/-! ### C7 -/

/-- C7: `get_network_slice` is total (always one of the three slices), the
URLLC rule (`pps > 200` or ICMP, priority 1, weight 0.30) dominates, then the
mMTC rule (`packet_size < 200` and `pps < 20`, priority 3, weight 0.20), else
eMBB (priority 2, weight 0.50); in particular `packet_size=50, pps=250`
yields URLLC even though the mMTC size test holds numerically. -/
theorem C7_slice_classification (packet_size : ℤ) (protocol : String) (pps : ℚ) :
    ((get_network_slice packet_size protocol pps).slice = "URLLC" ∨
     (get_network_slice packet_size protocol pps).slice = "mMTC" ∨
     (get_network_slice packet_size protocol pps).slice = "eMBB") ∧
    ((pps > 200 ∨ protocol = "ICMP") →
      get_network_slice packet_size protocol pps =
        ⟨"URLLC", 1, 3/10, "Ultra Reliable Low Latency Communications"⟩) ∧
    (¬ (pps > 200 ∨ protocol = "ICMP") → packet_size < 200 → pps < 20 →
      get_network_slice packet_size protocol pps =
        ⟨"mMTC", 3, 1/5, "Massive Machine Type Communications"⟩) ∧
    (¬ (pps > 200 ∨ protocol = "ICMP") → ¬ (packet_size < 200 ∧ pps < 20) →
      get_network_slice packet_size protocol pps =
        ⟨"eMBB", 2, 1/2, "Enhanced Mobile Broadband"⟩) ∧
    get_network_slice 50 protocol 250 =
      ⟨"URLLC", 1, 3/10, "Ultra Reliable Low Latency Communications"⟩ := by
  refine ⟨?_, ?_, ?_, ?_, ?_⟩
  · by_cases h1 : pps > 200 ∨ protocol = "ICMP"
    · simp [get_network_slice, classify_slice, apply_slice_policy, SLICE_DEFINITIONS, h1]
    · by_cases h2 : packet_size < 200 ∧ pps < 20 <;>
        simp [get_network_slice, classify_slice, apply_slice_policy, SLICE_DEFINITIONS, h1, h2]
  · intro h1
    simp [get_network_slice, classify_slice, apply_slice_policy, SLICE_DEFINITIONS, h1]
  · intro h1 h2 h3
    simp [get_network_slice, classify_slice, apply_slice_policy, SLICE_DEFINITIONS, h1, h2, h3]
  · intro h1 h2
    simp [get_network_slice, classify_slice, apply_slice_policy, SLICE_DEFINITIONS, h1, h2]
  · have h1 : (250 : ℚ) > 200 ∨ protocol = "ICMP" := Or.inl (by norm_num)
    simp [get_network_slice, classify_slice, apply_slice_policy, SLICE_DEFINITIONS, h1]

/-- C7 witness: the dominance and mMTC branches evaluated at concrete inputs
through the theorem. -/
theorem C7_slice_classification_witness :
    get_network_slice 300 "ICMP" 100 =
      ⟨"URLLC", 1, 3/10, "Ultra Reliable Low Latency Communications"⟩ ∧
    get_network_slice 50 "UDP" 10 =
      ⟨"mMTC", 3, 1/5, "Massive Machine Type Communications"⟩ ∧
    get_network_slice 500 "UDP" 100 =
      ⟨"eMBB", 2, 1/2, "Enhanced Mobile Broadband"⟩ :=
  ⟨(C7_slice_classification 300 "ICMP" 100).2.1 (Or.inr rfl),
   (C7_slice_classification 50 "UDP" 10).2.2.1 (by decide) (by decide) (by decide),
   (C7_slice_classification 500 "UDP" 100).2.2.2.1 (by decide) (by decide)⟩

/-! ### C10 -/

/-- C10: for a source with no BlockRecord, `unblock_ip` returns False, makes
no control-plane unblock call, and leaves the registry and history
unchanged. -/
theorem C10_unblock_unknown_ip (sdn : SDNOracle) (s : EngineState) (ip : String)
    (h : assocGet s.blocked_ips ip = none) :
    unblock_ip sdn s ip = (false, s, 0) := by
  simp [unblock_ip, h]

/-- C10 witness: `unblock_ip` on a fresh engine for a concrete ip. -/
theorem C10_unblock_unknown_ip_witness :
    unblock_ip sdnAlwaysOk emptyEngine "1.2.3.4" = (false, emptyEngine, 0) :=
  C10_unblock_unknown_ip sdnAlwaysOk emptyEngine "1.2.3.4" rfl

/-! ### C2 -/

/-- C2: mitigation idempotence.  For a valid, not-yet-blocked source and a
threat-confirmed verdict (prediction lowercases to "ddos", confidence at or
above the 0.5 threshold) with a succeeding control plane, the first
`execute_mitigation` call blocks (one control-plane call, one appended
BLOCKED history entry) and the second call returns `already_blocked` with
`packets_blocked` incremented to 1, makes no control-plane call and appends
no history entry — so the two calls together make exactly one control-plane
block call and append exactly one BLOCKED entry. -/
theorem C2_mitigation_idempotent (sdn : SDNOracle) (s : EngineState) (t1 t2 : ℚ)
    (det : DetectionResult) (ip : String)
    (h1 : ip ≠ "unknown") (h2 : ip ≠ "0.0.0.0") (h3 : ip ≠ "")
    (hnb : assocGet s.blocked_ips ip = none)
    (hddos : strLower det.prediction = "ddos")
    (hconf : det.confidence ≥ ddos_threshold)
    (hsdn : sdn.blockOk ip = true) :
    (execute_mitigation sdn s t1 det ip).1.status = "blocked" ∧
    (execute_mitigation sdn s t1 det ip).2.2 = 1 ∧
    (execute_mitigation sdn s t1 det ip).2.1.mitigation_history =
      s.mitigation_history ++ [⟨t1, ip, det.confidence, "BLOCKED"⟩] ∧
    (execute_mitigation sdn (execute_mitigation sdn s t1 det ip).2.1 t2 det ip).1.status =
      "already_blocked" ∧
    (execute_mitigation sdn (execute_mitigation sdn s t1 det ip).2.1 t2 det ip).1.packets_blocked =
      some 1 ∧
    (execute_mitigation sdn (execute_mitigation sdn s t1 det ip).2.1 t2 det ip).2.2 = 0 ∧
    (execute_mitigation sdn (execute_mitigation sdn s t1 det ip).2.1 t2 det ip).2.1.mitigation_history =
      (execute_mitigation sdn s t1 det ip).2.1.mitigation_history := by
  have hfst : execute_mitigation sdn s t1 det ip =
      (⟨"blocked", true, none, some det.confidence⟩,
       ⟨assocSet s.blocked_ips ip ⟨t1, det.confidence, 0, "DDoS detected", t1⟩,
        s.mitigation_history ++ [⟨t1, ip, det.confidence, "BLOCKED"⟩]⟩, 1) := by
    simp [execute_mitigation, is_ip_blocked, block_ip, hnb, hddos, hconf, hsdn, h1, h2, h3]
  rw [hfst]
  simp [execute_mitigation, is_ip_blocked, block_ip, hddos, hconf, hsdn, h1, h2, h3,
    assocGet_assocSet_self]

/-- C2 witness: both calls evaluated on a fresh engine with an always-ok
controller for a concrete threat verdict. -/
theorem C2_mitigation_idempotent_witness :
    (execute_mitigation sdnAlwaysOk emptyEngine 100 ⟨"ddos", 9/10⟩ "10.0.0.5").1.status =
      "blocked" ∧
    (execute_mitigation sdnAlwaysOk emptyEngine 100 ⟨"ddos", 9/10⟩ "10.0.0.5").2.2 = 1 ∧
    (execute_mitigation sdnAlwaysOk emptyEngine 100 ⟨"ddos", 9/10⟩ "10.0.0.5").2.1.mitigation_history =
      emptyEngine.mitigation_history ++ [⟨100, "10.0.0.5", 9/10, "BLOCKED"⟩] ∧
    (execute_mitigation sdnAlwaysOk
      (execute_mitigation sdnAlwaysOk emptyEngine 100 ⟨"ddos", 9/10⟩ "10.0.0.5").2.1
      101 ⟨"ddos", 9/10⟩ "10.0.0.5").1.status = "already_blocked" ∧
    (execute_mitigation sdnAlwaysOk
      (execute_mitigation sdnAlwaysOk emptyEngine 100 ⟨"ddos", 9/10⟩ "10.0.0.5").2.1
      101 ⟨"ddos", 9/10⟩ "10.0.0.5").1.packets_blocked = some 1 ∧
    (execute_mitigation sdnAlwaysOk
      (execute_mitigation sdnAlwaysOk emptyEngine 100 ⟨"ddos", 9/10⟩ "10.0.0.5").2.1
      101 ⟨"ddos", 9/10⟩ "10.0.0.5").2.2 = 0 ∧
    (execute_mitigation sdnAlwaysOk
      (execute_mitigation sdnAlwaysOk emptyEngine 100 ⟨"ddos", 9/10⟩ "10.0.0.5").2.1
      101 ⟨"ddos", 9/10⟩ "10.0.0.5").2.1.mitigation_history =
      (execute_mitigation sdnAlwaysOk emptyEngine 100 ⟨"ddos", 9/10⟩ "10.0.0.5").2.1.mitigation_history :=
  C2_mitigation_idempotent sdnAlwaysOk emptyEngine 100 101 ⟨"ddos", 9/10⟩ "10.0.0.5"
    (by decide) (by decide) (by decide) rfl (by decide)
    (by show (9 : ℚ)/10 ≥ ddos_threshold; norm_num [ddos_threshold]) rfl

/-! ### C6 -/

/-- C6: block-failure atomicity.  For a valid source with no existing
BlockRecord and a threat-confirmed verdict, when the control-plane block call
fails, `execute_mitigation` returns `block_failed` and the engine state is
left exactly unchanged: no BlockRecord, no history event (one control-plane
call was attempted). -/
theorem C6_block_failure_atomic (sdn : SDNOracle) (s : EngineState) (now : ℚ)
    (det : DetectionResult) (ip : String)
    (h1 : ip ≠ "unknown") (h2 : ip ≠ "0.0.0.0") (h3 : ip ≠ "")
    (hnb : assocGet s.blocked_ips ip = none)
    (hddos : strLower det.prediction = "ddos")
    (hconf : det.confidence ≥ ddos_threshold)
    (hsdn : sdn.blockOk ip = false) :
    execute_mitigation sdn s now det ip = (⟨"block_failed", false, none, none⟩, s, 1) := by
  simp [execute_mitigation, is_ip_blocked, block_ip, hnb, hddos, hconf, hsdn, h1, h2, h3]

/-- C6 witness: a failing controller on a fresh engine for a concrete threat
verdict. -/
theorem C6_block_failure_atomic_witness :
    execute_mitigation sdnAlwaysFails emptyEngine 100 ⟨"ddos", 9/10⟩ "10.0.0.5" =
      (⟨"block_failed", false, none, none⟩, emptyEngine, 1) :=
  C6_block_failure_atomic sdnAlwaysFails emptyEngine 100 ⟨"ddos", 9/10⟩ "10.0.0.5"
    (by decide) (by decide) (by decide) rfl (by decide)
    (by show (9 : ℚ)/10 ≥ ddos_threshold; norm_num [ddos_threshold]) rfl

/-! ### C5 -/

/-- C5 counterexample: a record blocked at T=0 with the default duration 3600
is removed by a sweep at check time 3601 (> T+D, controller succeeding) — yet
the history stays empty: no EXPIRED entry is ever appended (`unblock_ip`,
which the sweep calls, never touches `mitigation_history`). -/
theorem C5_counterexample :
    (cleanup_expired_blocks sdnAlwaysOk
        ⟨[("1.2.3.4", ⟨0, 1, 0, "DDoS detected", 0⟩)], []⟩ 3601).1.blocked_ips = [] ∧
    (cleanup_expired_blocks sdnAlwaysOk
        ⟨[("1.2.3.4", ⟨0, 1, 0, "DDoS detected", 0⟩)], []⟩ 3601).1.mitigation_history = [] := by
  have hexp : block_duration < (3601 : ℚ) := by norm_num [block_duration]
  constructor <;>
    simp [cleanup_expired_blocks, List.filter, unblock_ip, assocGet, assocRemove, hexp,
      sdnAlwaysOk, max_history]

/-- C5 (amended): a BlockRecord created at time T with duration D=3600 is
removed by the sweep at any check time strictly greater than T+D provided
the control-plane unblock succeeds (exactly one unblock call), and it is
never removed at any check time ≤ T+D (no unblock call); in both cases the
history is left unchanged — in particular no EXPIRED entry is appended.
(The history hypothesis keeps the sweep's truncation a no-op.) -/
theorem C5_expiry (sdn : SDNOracle) (ip : String) (r : BlockRecord)
    (hist : List HistEvent) (now : ℚ)
    (hsucc : sdn.unblockOk ip = true) (hh : hist.length ≤ max_history) :
    (now - r.timestamp > block_duration →
      cleanup_expired_blocks sdn ⟨[(ip, r)], hist⟩ now = (⟨[], hist⟩, 1)) ∧
    (now - r.timestamp ≤ block_duration →
      cleanup_expired_blocks sdn ⟨[(ip, r)], hist⟩ now = (⟨[(ip, r)], hist⟩, 0)) := by
  have htrunc : ¬ (hist.length > max_history) := not_lt.mpr hh
  constructor
  · intro hexp
    simp [cleanup_expired_blocks, unblock_ip, assocGet, assocRemove, hexp, hsucc, htrunc]
  · intro hexp
    simp [cleanup_expired_blocks, unblock_ip, assocGet, assocRemove, not_lt.mpr hexp, htrunc]

/-- C5 witness: the sweep evaluated just after and just before expiry for a
concrete record. -/
theorem C5_expiry_witness :
    cleanup_expired_blocks sdnAlwaysOk
        ⟨[("1.2.3.4", ⟨0, 1, 0, "DDoS detected", 0⟩)], []⟩ 3601 = (⟨[], []⟩, 1) ∧
    cleanup_expired_blocks sdnAlwaysOk
        ⟨[("1.2.3.4", ⟨0, 1, 0, "DDoS detected", 0⟩)], []⟩ 3600 = (⟨[("1.2.3.4", ⟨0, 1, 0, "DDoS detected", 0⟩)], []⟩, 0) :=
  ⟨(C5_expiry sdnAlwaysOk "1.2.3.4" ⟨0, 1, 0, "DDoS detected", 0⟩ [] 3601 rfl (by decide)).1
     (by show (3601 : ℚ) - 0 > block_duration; norm_num [block_duration]),
   (C5_expiry sdnAlwaysOk "1.2.3.4" ⟨0, 1, 0, "DDoS detected", 0⟩ [] 3600 rfl (by decide)).2
     (by show (3600 : ℚ) - 0 ≤ block_duration; norm_num [block_duration])⟩

/-! ### C9 -/

set_option maxRecDepth 4096 in
/-- C9 counterexample: with the history already at its `max_history = 1000`
bound, a successful `execute_mitigation` block appends a 1001st entry —
appends do not truncate, so the bound is not an invariant of every operation
that touches the history. -/
theorem C9_counterexample :
    ((execute_mitigation sdnAlwaysOk ⟨[], fullHistory⟩ 0 ⟨"ddos", 1⟩
        "10.0.0.5").2.1.mitigation_history).length = 1001 ∧ 1001 > max_history := by
  constructor
  · have hl : strLower "ddos" = "ddos" := by decide
    have hc : (1 : ℚ) ≥ ddos_threshold := by norm_num [ddos_threshold]
    have h : execute_mitigation sdnAlwaysOk ⟨[], fullHistory⟩ 0 ⟨"ddos", 1⟩ "10.0.0.5" =
        (⟨"blocked", true, none, some 1⟩,
         ⟨assocSet [] "10.0.0.5" ⟨0, 1, 0, "DDoS detected", 0⟩,
          fullHistory ++ [⟨0, "10.0.0.5", 1, "BLOCKED"⟩]⟩, 1) := by
      simp [execute_mitigation, is_ip_blocked, block_ip, assocGet, hl, hc, sdnAlwaysOk]
    rw [h]
    simp [fullHistory]
  · decide

/-- C9 (amended): the `max_history` bound on the mitigation history is
restored only by the periodic sweep: after every `_cleanup_expired_blocks`
run the history holds at most `max_history` entries (on overflow the oldest
entries are silently dropped, FIFO); appends between sweeps may transiently
exceed the bound. -/
theorem C9_history_bound_after_sweep (sdn : SDNOracle) (s : EngineState) (now : ℚ) :
    (cleanup_expired_blocks sdn s now).1.mitigation_history.length ≤ max_history := by
  unfold cleanup_expired_blocks
  dsimp
  split
  · rw [List.length_drop]
    omega
  · omega

/-! ### C4 -/

theorem purgeFront_no_purge (w ts : ℚ) (q : List ℚ) (hw : 0 ≤ w)
    (h : ∀ x ∈ q, ts - x ≤ w) :
    purgeFront w ts (q ++ [ts]) = q ++ [ts] := by
  cases q with
  | nil =>
    have h0 : ¬ (w < 0) := not_lt.mpr hw
    simp [purgeFront, h0]
  | cons a rest =>
    have ha : ¬ (ts - a > w) := not_lt.mpr (h a (List.mem_cons_self a rest))
    simp [purgeFront, ha]

theorem purgeFront_all (w ts : ℚ) (q : List ℚ) (hw : 0 ≤ w)
    (h : ∀ x ∈ q, ts - x > w) :
    purgeFront w ts (q ++ [ts]) = [ts] := by
  induction q with
  | nil =>
    have h0 : ¬ (w < 0) := not_lt.mpr hw
    simp [purgeFront, h0]
  | cons a rest ih =>
    have ha : ts - a > w := h a (List.mem_cons_self a rest)
    simp [purgeFront, ha]
    exact ih (fun x hx => h x (List.mem_cons_of_mem a hx))

theorem rateTracker_add_single (w : ℚ) (src : String) (q : List ℚ) (ts : ℚ) :
    RateTracker.add ⟨w, [(src, q)]⟩ src ts = ⟨w, [(src, purgeFront w ts (q ++ [ts]))]⟩ := by
  simp [RateTracker.add, RateTracker.queue, assocGet, assocSet]

theorem rateTracker_add_empty (w : ℚ) (src : String) (ts : ℚ) :
    RateTracker.add ⟨w, []⟩ src ts = ⟨w, [(src, purgeFront w ts [ts])]⟩ := by
  simp [RateTracker.add, RateTracker.queue, assocGet, assocSet]

theorem rateTracker_addAll_single (w : ℚ) (hw : 0 ≤ w) (src : String) (q l : List ℚ)
    (h : ∀ a ∈ l, ∀ b ∈ q ++ l, a - b ≤ w) :
    RateTracker.addAll ⟨w, [(src, q)]⟩ src l = ⟨w, [(src, q ++ l)]⟩ := by
  induction l generalizing q with
  | nil => simp [RateTracker.addAll]
  | cons ts rest ih =>
    have step : RateTracker.add ⟨w, [(src, q)]⟩ src ts = ⟨w, [(src, q ++ [ts])]⟩ := by
      rw [rateTracker_add_single, purgeFront_no_purge w ts q hw]
      intro x hx
      exact h ts (List.mem_cons_self _ _) x (List.mem_append_left _ hx)
    show RateTracker.addAll (RateTracker.add ⟨w, [(src, q)]⟩ src ts) src rest = _
    rw [step]
    have h' : ∀ a ∈ rest, ∀ b ∈ (q ++ [ts]) ++ rest, a - b ≤ w := by
      intro a ha b hb
      apply h a (List.mem_cons_of_mem _ ha)
      simp only [List.mem_append, List.mem_cons, List.mem_singleton] at hb ⊢
      tauto
    rw [ih (q ++ [ts]) h']
    simp

/-- C4 counterexample: one event recorded at t = 0 with window 1; `pps` reads
no clock and never purges, so whenever it is queried afterwards — in
particular at any time past t = 1, with no further events recorded — it still
returns 1, not 0 as the claim requires (purging happens only inside
`record`). -/
theorem C4_counterexample :
    RateTracker.pps (RateTracker.add ⟨1, []⟩ "10.0.0.5" 0) "10.0.0.5" = 1 ∧ (1 : ℚ) ≠ 0 := by
  constructor
  · rw [rateTracker_add_empty]
    have h0 : ¬ ((1 : ℚ) < 0) := by norm_num
    simp [purgeFront, h0, RateTracker.pps, RateTracker.queue, assocGet]
  · norm_num

/-- C4 (amended): after recording N events whose timestamps all lie within
one window duration, `rate()` returns N/window; entries are purged only by
`record`, never by `rate`, so with no further `record` calls `rate()` keeps
returning that value regardless of elapsed time — and a single later
`record` at a time past the window of every earlier event purges them all,
after which `rate()` returns 1/window. -/
theorem C4_rate_window (w : ℚ) (hw : 0 < w) (src : String) (l : List ℚ)
    (h : ∀ a ∈ l, ∀ b ∈ l, a - b ≤ w) :
    RateTracker.pps (RateTracker.addAll ⟨w, []⟩ src l) src = (l.length : ℚ) / w ∧
    (∀ ts', (∀ a ∈ l, ts' - a > w) →
      RateTracker.pps (RateTracker.add (RateTracker.addAll ⟨w, []⟩ src l) src ts') src
        = 1 / w) := by
  cases l with
  | nil =>
    constructor
    · simp [RateTracker.addAll, RateTracker.pps, RateTracker.queue, assocGet]
    · intro ts' _
      have h0 : ¬ (w < 0) := not_lt.mpr hw.le
      simp [RateTracker.addAll, rateTracker_add_empty, purgeFront, h0,
        RateTracker.pps, RateTracker.queue, assocGet, one_div]
  | cons t rest =>
    have hstep : RateTracker.add ⟨w, []⟩ src t = ⟨w, [(src, [t])]⟩ := by
      rw [rateTracker_add_empty]
      have h0 : ¬ (w < 0) := not_lt.mpr hw.le
      simp [purgeFront, h0]
    have hall : RateTracker.addAll ⟨w, []⟩ src (t :: rest) = ⟨w, [(src, t :: rest)]⟩ := by
      show RateTracker.addAll (RateTracker.add ⟨w, []⟩ src t) src rest = _
      rw [hstep]
      have h' : ∀ a ∈ rest, ∀ b ∈ [t] ++ rest, a - b ≤ w := by
        intro a ha b hb
        exact h a (List.mem_cons_of_mem _ ha) b (by simpa using hb)
      rw [rateTracker_addAll_single w hw.le src [t] rest h']
      simp
    constructor
    · rw [hall]
      simp [RateTracker.pps, RateTracker.queue, assocGet]
    · intro ts' hts'
      rw [hall, rateTracker_add_single,
        purgeFront_all w ts' (t :: rest) hw.le hts']
      simp [RateTracker.pps, RateTracker.queue, assocGet]

/-- C4 witness: three events at 0, 0.5, 1 within window 1 give rate 3; a
later record at t = 3 purges them all, after which the rate is 1. -/
theorem C4_rate_window_witness :
    RateTracker.pps (RateTracker.addAll ⟨1, []⟩ "10.0.0.5" [0, 1/2, 1]) "10.0.0.5" = 3 ∧
    RateTracker.pps (RateTracker.add
        (RateTracker.addAll ⟨1, []⟩ "10.0.0.5" [0, 1/2, 1]) "10.0.0.5" 3) "10.0.0.5" = 1 := by
  have H := C4_rate_window 1 (by norm_num) "10.0.0.5" [0, 1/2, 1] (by
    intro a ha b hb
    simp only [List.mem_cons, List.not_mem_nil, or_false] at ha hb
    rcases ha with rfl | rfl | rfl <;> rcases hb with rfl | rfl | rfl <;> norm_num)
  refine ⟨H.1.trans (by norm_num), (H.2 3 ?_).trans (by norm_num)⟩
  intro a ha
  simp only [List.mem_cons, List.not_mem_nil, or_false] at ha
  rcases ha with rfl | rfl | rfl <;> norm_num

/-! ### C8 -/

theorem assocGet_eq_none_of_forall {β : Type} (l : List (String × β)) (k : String)
    (h : ∀ x ∈ l, x.1 ≠ k) : assocGet l k = none := by
  induction l with
  | nil => rfl
  | cons e rest ih =>
    obtain ⟨k', v'⟩ := e
    have : k' ≠ k := h (k', v') (List.mem_cons_self _ _)
    simp only [assocGet, if_neg this]
    exact ih (fun x hx => h x (List.mem_cons_of_mem _ hx))

theorem oldestEntry_spec {V : Type} (l : List (String × V × ℚ)) (k : String) (t : ℚ)
    (h : oldestEntry l = some (k, t)) : ∃ x ∈ l, x.1 = k ∧ x.2.2 = t := by
  induction l with
  | nil => simp [oldestEntry] at h
  | cons e rest ih =>
    obtain ⟨k1, v1, t1⟩ := e
    simp only [oldestEntry] at h
    cases hr : oldestEntry rest with
    | none =>
      rw [hr] at h
      dsimp only at h
      simp at h
      exact ⟨(k1, v1, t1), List.mem_cons_self _ _, h.1, h.2⟩
    | some p =>
      obtain ⟨k', t'⟩ := p
      rw [hr] at h
      dsimp only at h
      by_cases hle : t1 ≤ t'
      · rw [if_pos hle] at h
        simp at h
        exact ⟨(k1, v1, t1), List.mem_cons_self _ _, h.1, h.2⟩
      · rw [if_neg hle] at h
        obtain ⟨x, hx, hxk, hxt⟩ := ih (hr.trans h)
        exact ⟨x, List.mem_cons_of_mem _ hx, hxk, hxt⟩

theorem oldestEntry_cons_of_lt {V : Type} (e : String × V × ℚ)
    (rest : List (String × V × ℚ)) (h : ∀ x ∈ rest, e.2.2 < x.2.2) :
    oldestEntry (e :: rest) = some (e.1, e.2.2) := by
  obtain ⟨k1, v1, t1⟩ := e
  simp only [oldestEntry]
  cases hr : oldestEntry rest with
  | none => rfl
  | some p =>
    obtain ⟨k', t'⟩ := p
    obtain ⟨x, hx, _, hxt⟩ := oldestEntry_spec rest k' t' hr
    have hlt : t1 < t' := hxt ▸ h x hx
    dsimp only
    rw [if_pos hlt.le]

theorem oldestEntry_cons_isSome {V : Type} (e : String × V × ℚ)
    (rest : List (String × V × ℚ)) : ∃ k t, oldestEntry (e :: rest) = some (k, t) := by
  obtain ⟨k1, v1, t1⟩ := e
  simp only [oldestEntry]
  cases oldestEntry rest with
  | none => exact ⟨k1, t1, rfl⟩
  | some p =>
    obtain ⟨k', t'⟩ := p
    by_cases hle : t1 ≤ t'
    · exact ⟨k1, t1, by dsimp only; rw [if_pos hle]⟩
    · exact ⟨k', t', by dsimp only; rw [if_neg hle]⟩

theorem pcache_set_length_le {V : Type} (c : PCache V) (now : ℚ) (k : String) (v : V)
    (hm : 1 ≤ c.max_size) (hlen : c.entries.length ≤ c.max_size) :
    (c.set now k v).entries.length ≤ c.max_size := by
  unfold PCache.set
  dsimp only
  by_cases hge : c.entries.length ≥ c.max_size
  · rw [if_pos hge]
    cases hE : c.entries with
    | nil =>
      rw [hE] at hge
      simp at hge
      omega
    | cons e rest =>
      obtain ⟨k0, t0, hsome⟩ := oldestEntry_cons_isSome e rest
      rw [hsome]
      obtain ⟨x, hx, hxk, _⟩ := oldestEntry_spec (e :: rest) k0 t0 hsome
      obtain ⟨v0, hget⟩ := assocGet_of_key_mem (e :: rest) k0 ⟨x, hx, hxk⟩
      have hrem := assocRemove_length_of_get (e :: rest) k0 v0 hget
      have hset := assocSet_length_le (assocRemove (e :: rest) k0) k (v, now)
      have hlen' : (e :: rest).length ≤ c.max_size := hE ▸ hlen
      rw [hE] at hge
      dsimp only
      omega
  · rw [if_neg hge]
    have hset := assocSet_length_le c.entries k (v, now)
    omega

theorem pcache_setAll_append {V : Type} (c : PCache V) (l1 l2 : List (String × V × ℚ)) :
    PCache.setAll c (l1 ++ l2) = PCache.setAll (PCache.setAll c l1) l2 := by
  simp [PCache.setAll, List.foldl_append]

theorem pcache_setAll_fill {V : Type} (m : Nat) (ttl : ℚ) (es l : List (String × V × ℚ))
    (hlen : es.length + l.length ≤ m)
    (hfresh : ∀ e ∈ l, assocGet es e.1 = none)
    (hdist : (l.map (fun e => e.1)).Pairwise (fun a b => a ≠ b)) :
    PCache.setAll ⟨m, ttl, es⟩ l = ⟨m, ttl, es ++ l⟩ := by
  induction l generalizing es with
  | nil => simp [PCache.setAll]
  | cons e rest ih =>
    have hne : ¬ (es.length ≥ m) := by
      simp only [List.length_cons] at hlen
      omega
    have hstep : PCache.set (⟨m, ttl, es⟩ : PCache V) e.2.2 e.1 e.2.1 =
        ⟨m, ttl, es ++ [e]⟩ := by
      unfold PCache.set
      dsimp only
      rw [if_neg hne,
        assocSet_absent es e.1 (e.2.1, e.2.2) (hfresh e (List.mem_cons_self _ _))]
    show PCache.setAll (PCache.set (⟨m, ttl, es⟩ : PCache V) e.2.2 e.1 e.2.1) rest = _
    rw [hstep]
    rw [List.map_cons, List.pairwise_cons] at hdist
    have h1 : (es ++ [e]).length + rest.length ≤ m := by
      simp only [List.length_cons] at hlen
      simp only [List.length_append, List.length_cons, List.length_nil]
      omega
    have h2 : ∀ e' ∈ rest, assocGet (es ++ [e]) e'.1 = none := by
      intro e' he'
      rw [assocGet_append, hfresh e' (List.mem_cons_of_mem _ he')]
      have hne' : e.1 ≠ e'.1 := hdist.1 e'.1 (List.mem_map_of_mem _ he')
      simp [assocGet, hne']
    rw [ih (es ++ [e]) h1 h2 hdist.2]
    simp

/-- C8: cache bound.  Starting from an empty cache of capacity `max_size ≥ 1`,
performing `max_size + 1` `set` calls with pairwise-distinct keys at strictly
increasing times leaves exactly `max_size` entries — the survivors are
exactly the inserts after the first, the evicted key being the one with the
earliest `stored_at` among those present before the overflow insert (the
first key, no longer retrievable) — and `len(cache) ≤ max_size` holds after
every single `set` on any cache within its bound. -/
theorem C8_cache_bound {V : Type} (m : Nat) (ttl : ℚ) (l : List (String × V × ℚ))
    (hm : 1 ≤ m) (hlen : l.length = m + 1)
    (hdist : (l.map (fun e => e.1)).Pairwise (fun a b => a ≠ b))
    (htimes : (l.map (fun e => e.2.2)).Pairwise (fun a b => a < b)) :
    (PCache.setAll ⟨m, ttl, []⟩ l).entries = l.drop 1 ∧
    (PCache.setAll ⟨m, ttl, []⟩ l).entries.length = m ∧
    (∀ e0, l.head? = some e0 →
      assocGet (PCache.setAll ⟨m, ttl, []⟩ l).entries e0.1 = none) ∧
    (∀ (c : PCache V) (now : ℚ) (k : String) (v : V), 1 ≤ c.max_size →
      c.entries.length ≤ c.max_size → (c.set now k v).entries.length ≤ c.max_size) := by
  obtain ⟨e0, tail, rfl⟩ : ∃ e0 tail, l = e0 :: tail := by
    cases l with
    | nil => simp at hlen
    | cons a b => exact ⟨a, b, rfl⟩
  rcases List.eq_nil_or_concat tail with rfl | ⟨mid, x, rfl⟩
  · simp at hlen
    omega
  simp only [List.concat_eq_append] at hlen hdist htimes ⊢
  simp only [List.length_cons, List.length_append, List.length_nil] at hlen
  have hmidlen : mid.length + 1 = m := by omega
  simp only [List.map_cons, List.map_append, List.map_cons, List.map_nil] at hdist htimes
  rw [List.pairwise_cons] at hdist htimes
  have hkeys_x : ∀ y ∈ mid, y.1 ≠ x.1 := by
    intro y hy
    have hpa := (List.pairwise_append.mp hdist.2).2.2
    exact hpa y.1 (List.mem_map_of_mem _ hy) x.1 (List.mem_singleton_self _)
  have htimes_mid : ∀ y ∈ mid, e0.2.2 < y.2.2 := by
    intro y hy
    exact htimes.1 y.2.2 (List.mem_append_left _ (List.mem_map_of_mem _ hy))
  have hsplit : e0 :: (mid ++ [x]) = (e0 :: mid) ++ [x] := by simp
  have hdist_front : ((e0 :: mid).map (fun e => e.1)).Pairwise (fun a b => a ≠ b) := by
    rw [List.map_cons, List.pairwise_cons]
    constructor
    · intro a ha
      exact hdist.1 a (List.mem_append_left _ ha)
    · exact (List.pairwise_append.mp hdist.2).1
  have hfill : PCache.setAll (⟨m, ttl, []⟩ : PCache V) (e0 :: mid) =
      ⟨m, ttl, e0 :: mid⟩ := by
    have := pcache_setAll_fill m ttl [] (e0 :: mid)
      (by simp only [List.length_nil, List.length_cons]; omega)
      (fun _ _ => rfl) hdist_front
    simpa using this
  have hsetx : PCache.set (⟨m, ttl, e0 :: mid⟩ : PCache V) x.2.2 x.1 x.2.1 =
      ⟨m, ttl, mid ++ [x]⟩ := by
    unfold PCache.set
    dsimp only
    have hge : (e0 :: mid).length ≥ m := by
      simp only [List.length_cons]
      omega
    rw [if_pos hge, oldestEntry_cons_of_lt e0 mid htimes_mid]
    dsimp only
    have hrem : assocRemove (e0 :: mid) e0.1 = mid := by
      simp [assocRemove]
    rw [hrem, assocSet_absent mid x.1 (x.2.1, x.2.2)
      (assocGet_eq_none_of_forall mid x.1 hkeys_x)]
  have hfinal : PCache.setAll (⟨m, ttl, []⟩ : PCache V) (e0 :: (mid ++ [x])) =
      ⟨m, ttl, mid ++ [x]⟩ := by
    rw [hsplit, pcache_setAll_append, hfill]
    show PCache.set (⟨m, ttl, e0 :: mid⟩ : PCache V) x.2.2 x.1 x.2.1 = _
    exact hsetx
  refine ⟨?_, ?_, ?_, ?_⟩
  · rw [hfinal]
    simp
  · rw [hfinal]
    simp only [List.length_append, List.length_cons, List.length_nil]
    omega
  · intro e0' he0'
    simp only [List.head?_cons, Option.some_inj] at he0'
    subst he0'
    rw [hfinal]
    apply assocGet_eq_none_of_forall
    intro y hy
    rcases List.mem_append.mp hy with hy1 | hy1
    · exact Ne.symm (hdist.1 y.1 (List.mem_append_left _ (List.mem_map_of_mem _ hy1)))
    · rw [List.mem_singleton] at hy1
      subst hy1
      exact Ne.symm (hdist.1 y.1 (List.mem_append_right _ (List.mem_singleton_self _)))
  · intro c now k v h1 h2
    exact pcache_set_length_le c now k v h1 h2

/-- C8 witness: capacity 2, three distinct keys inserted at times 0, 1, 2;
"a" (the earliest insert) is evicted and exactly ["b", "c"] remain. -/
theorem C8_cache_bound_witness :
    (PCache.setAll (⟨2, 30, []⟩ : PCache ℚ)
        [("a", 1, 0), ("b", 2, 1), ("c", 3, 2)]).entries = [("b", 2, 1), ("c", 3, 2)] ∧
    (PCache.setAll (⟨2, 30, []⟩ : PCache ℚ)
        [("a", 1, 0), ("b", 2, 1), ("c", 3, 2)]).entries.length = 2 ∧
    assocGet (PCache.setAll (⟨2, 30, []⟩ : PCache ℚ)
        [("a", 1, 0), ("b", 2, 1), ("c", 3, 2)]).entries "a" = none := by
  have H := @C8_cache_bound ℚ 2 30 [("a", 1, 0), ("b", 2, 1), ("c", 3, 2)]
    (by norm_num) rfl (by decide) (by decide)
  exact ⟨H.1, H.2.1, H.2.2.1 ("a", 1, 0) rfl⟩
